import Mathlib

/-!
Verification of the github-service synchronization engine.

Shallow embedding of the Go sources: the durable job queue over the
`jobs` relation (`internal/queue/postgres_queue.go`), the job worker
(`internal/worker/job_worker.go`), the periodic sync worker
(`internal/worker/sync_worker.go`), the store operations over
`monitored_repositories` (`internal/database/database.go`), the sync
service commit-ingestion loop (`internal/service`), and the GitHub
client's pagination and rate-limit snapshot (`internal/github/client.go`).

Timestamps are modelled as natural numbers (nanoseconds unless noted);
SQL relations as lists of rows; fallible operations return `Except`.
-/

namespace GithubService

/-! ### Job queue data model (`internal/queue`) -/

/-- Job status values, from `internal/queue` (`JobStatusPending` .. `JobStatusStopped`). -/
inductive JobStatus where
  | pending
  | running
  | complete
  | failed
  | stopped
deriving DecidableEq, Repr

/-- `DefaultMaxRetries = 3` from `internal/queue`. -/
def DefaultMaxRetries : Nat := 3

/-- `DefaultInitialBackoff = 1 * time.Second` in nanoseconds. -/
def DefaultInitialBackoff : Nat := 1000000000

/-- A row of the `jobs` relation plus the in-memory `queue.Job` fields the
worker manipulates.  Payload and type are irrelevant to the queue-state
claims and are omitted; timestamps are nanoseconds. -/
structure QJob where
  id : Nat
  status : JobStatus
  createdAt : Nat
  updatedAt : Nat
  error : Option String
  retryCount : Nat
  maxRetries : Nat
  lastRetryAt : Option Nat
  nextRetryAt : Option Nat
  initialBackoff : Nat
deriving DecidableEq, Repr

/-- `PostgresQueue.Complete`: `UPDATE jobs SET status = 'complete', updated_at = now
WHERE id = jobID` (an `Exec`; a missing row is not an error). -/
def PostgresQueue.Complete (now : Nat) (jobID : Nat) (st : List QJob) : List QJob :=
  st.map fun r =>
    if r.id = jobID then { r with status := .complete, updatedAt := now } else r

/-- Row update performed by the first SQL statement of `PostgresQueue.Fail`:
`SET status = 'failed', updated_at = now, error = msg,
retry_count = retry_count + 1, last_retry_at = now,
next_retry_at = now + DefaultInitialBackoff WHERE id = jobID`. -/
def failUpdate (now : Nat) (jobID : Nat) (msg : String) (r : QJob) : QJob :=
  if r.id = jobID then
    { r with status := .failed, updatedAt := now, error := some msg,
             retryCount := r.retryCount + 1, lastRetryAt := some now,
             nextRetryAt := some (now + DefaultInitialBackoff) }
  else r

/-- Row update performed by the second SQL statement of `PostgresQueue.Fail`:
`SET initial_backoff = DefaultInitialBackoff WHERE id = jobID AND retry_count = 1`. -/
def backoffUpdate (jobID : Nat) (r : QJob) : QJob :=
  if r.id = jobID ∧ r.retryCount = 1 then { r with initialBackoff := DefaultInitialBackoff }
  else r

/-- `PostgresQueue.Fail(jobID, err)`: runs the failure `UPDATE` returning the new
`retry_count` (a `QueryRow`; no matching row surfaces as a scan error), then,
when the returned count is 1, persists `initial_backoff = DefaultInitialBackoff`. -/
def PostgresQueue.Fail (now : Nat) (jobID : Nat) (msg : String) (st : List QJob) :
    Except String (List QJob) :=
  match st.find? (fun r => r.id = jobID) with
  | none => .error "failed to update job status: sql: no rows in result set"
  | some r0 =>
      let st1 := st.map (failUpdate now jobID msg)
      if r0.retryCount + 1 = 1 then .ok (st1.map (backoffUpdate jobID))
      else .ok st1

/-- The calls a worker makes on the queue while finishing one job. -/
inductive QueueCall where
  | fail (jobID : Nat) (msg : String)
  | complete (jobID : Nat)
deriving DecidableEq, Repr

/-- Failure/success path of `JobWorker.processNextJob` after the handler for a
dequeued job has run.  `outcome` is `none` on handler success and
`some msg` on handler failure.  On failure with
`job.RetryCount >= job.MaxRetries` the Go code sets `job.Status = stopped`
only on the in-memory struct and then calls `Queue.Fail` with a wrapped
error; otherwise it bumps the in-memory retry fields and calls `Queue.Fail`;
on success it calls `Queue.Complete`.  Returns the resulting persisted
queue state together with the queue calls made. -/
def JobWorker.processDequeuedJob (now : Nat) (job : QJob) (outcome : Option String)
    (st : List QJob) : Except String (List QJob) × List QueueCall :=
  match outcome with
  | none => (.ok (PostgresQueue.Complete now job.id st), [.complete job.id])
  | some msg =>
      if job.maxRetries ≤ job.retryCount then
        let m := "max retries reached: " ++ msg
        (PostgresQueue.Fail now job.id m st, [.fail job.id m])
      else
        (PostgresQueue.Fail now job.id msg st, [.fail job.id msg])

/-- Row-level effect of `PostgresQueue.Fail` on the failed job, both SQL
statements composed (the second one fires exactly when the new
`retry_count` is 1). -/
def failedRow (now : Nat) (msg : String) (r : QJob) : QJob :=
  let r1 : QJob :=
    { r with status := .failed, updatedAt := now, error := some msg,
             retryCount := r.retryCount + 1, lastRetryAt := some now,
             nextRetryAt := some (now + DefaultInitialBackoff) }
  if r1.retryCount = 1 then { r1 with initialBackoff := DefaultInitialBackoff } else r1

/-! ### Worker backoff (`internal/worker/job_worker.go`, `calculateBackoff`)

The Go function computes over `float64`; the model computes over `ℚ`, with
`jitterDraw` standing for the `rand.Float64()` draw in `[0,1]`. -/

/-- `DefaultInitialBackoff` in nanoseconds, as a rational. -/
def qDefaultInitialBackoff : ℚ := 1000000000

/-- `DefaultMaxBackoff = 1 * time.Hour` in nanoseconds, as a rational. -/
def qDefaultMaxBackoff : ℚ := 3600000000000

/-- `DefaultBackoffFactor = 2.0`. -/
def qDefaultBackoffFactor : ℚ := 2

/-- `DefaultJitterFactor = 0.1`. -/
def qDefaultJitterFactor : ℚ := 1/10

/-- `JobWorker.calculateBackoff`: substitute the default when the job's
`InitialBackoff` is zero, take `initial * factor^retryCount`, add
`jitterDraw * jitterFactor * backoff`, and cap the sum at `DefaultMaxBackoff`. -/
def JobWorker.calculateBackoff (initialBackoff : ℚ) (retryCount : Nat) (jitterDraw : ℚ) : ℚ :=
  let ib := if initialBackoff = 0 then qDefaultInitialBackoff else initialBackoff
  let backoff := ib * qDefaultBackoffFactor ^ retryCount
  let withJitter := backoff + jitterDraw * qDefaultJitterFactor * backoff
  if qDefaultMaxBackoff < withJitter then qDefaultMaxBackoff else withJitter

/-- Next-retry timestamp as the specification words it for `Fail`:
`now + cap(initial_backoff * factor^retry_count * (1 + u * jitter_factor))`
with the cap at `max_backoff`.  Written from the spec for comparison with
the code's `PostgresQueue.Fail`. -/
def specFailNextRetryAt (now initialBackoff : ℚ) (retryCount : Nat) (jitterDraw : ℚ) : ℚ :=
  now + min (initialBackoff * qDefaultBackoffFactor ^ retryCount
              * (1 + jitterDraw * qDefaultJitterFactor)) qDefaultMaxBackoff

/-! ### Dequeue (`internal/queue/postgres_queue.go`) -/

/-- Row chosen by `ORDER BY created_at ASC ... LIMIT 1` over the candidate
rows: the first row, in relation order, with the least `created_at`. -/
def selectOldest : List QJob → Option QJob
  | [] => none
  | r :: rest =>
      match selectOldest rest with
      | none => some r
      | some b => if b.createdAt < r.createdAt then some b else some r

/-- `PostgresQueue.Dequeue`: one transaction running
`UPDATE jobs SET status = 'running', updated_at = now WHERE id =
(SELECT id FROM jobs WHERE status = 'pending' ORDER BY created_at ASC
FOR UPDATE SKIP LOCKED LIMIT 1) RETURNING ...`.
`locked` holds the ids of rows currently row-locked by concurrent
transactions (these are skipped).  `ErrNoRows` is mapped to
`(nil, nil)`: no job and no error, with the state unchanged. -/
def PostgresQueue.Dequeue (now : Nat) (locked : List Nat) (st : List QJob) :
    Option QJob × List QJob :=
  let cands := st.filter (fun r => decide (r.status = .pending ∧ r.id ∉ locked))
  match selectOldest cands with
  | none => (none, st)
  | some c =>
      (some { c with status := .running, updatedAt := now },
       st.map fun r =>
         if r.id = c.id then { r with status := .running, updatedAt := now } else r)

/-! ### Queue construction (`initializeQueueSchema`, `NewPostgresQueue`) -/

/-- The `jobs` relation as seen by the schema statements: `none` when the
table does not exist, `some rows` when it does. -/
abbrev JobsTable := Option (List QJob)

/-- `DROP TABLE IF EXISTS jobs;`. -/
def dropJobsTableIfExists (_db : JobsTable) : JobsTable := none

/-- `CREATE TABLE jobs (...)`: fails if the relation exists, otherwise
creates it empty. -/
def createJobsTable (db : JobsTable) : Except String JobsTable :=
  match db with
  | some _ => .error "relation jobs already exists"
  | none => .ok (some [])

/-- `initializeQueueSchema`: first the drop, then the create. -/
def initQueueSchema (db : JobsTable) : Except String JobsTable :=
  createJobsTable (dropJobsTableIfExists db)

/-- `NewPostgresQueue` runs `initializeQueueSchema` against the connection. -/
def NewPostgresQueue (db : JobsTable) : Except String JobsTable :=
  initQueueSchema db

/-! ### Monitored repositories (`internal/database/database.go`) -/

/-- A row of `monitored_repositories`. -/
structure MRepoRow where
  id : Nat
  fullName : String
  lastSyncTime : Nat
  syncInterval : String
  isActive : Bool
  updatedAt : Nat
deriving DecidableEq, Repr

/-- `DB.RemoveMonitoredRepository`: `UPDATE monitored_repositories SET
is_active = false, updated_at = CURRENT_TIMESTAMP WHERE full_name = $1`;
zero affected rows is reported as an error. -/
def DB.RemoveMonitoredRepository (now : Nat) (fullName : String) (st : List MRepoRow) :
    Except String (List MRepoRow) :=
  if st.any (fun r => r.fullName = fullName) then
    .ok (st.map fun r =>
      if r.fullName = fullName then { r with isActive := false, updatedAt := now } else r)
  else .error ("monitored repository not found: " ++ fullName)

/-- `DB.GetMonitoredRepositories`: `SELECT ... FROM monitored_repositories
WHERE is_active = true`. -/
def DB.GetMonitoredRepositories (st : List MRepoRow) : List MRepoRow :=
  st.filter (fun r => r.isActive)

/-! ### Sync service commit ingestion (`Service.SyncRepository`, with
`DB.CreateCommit` and `DB.GetCommitsBySHA` from `internal/database`) -/

/-- A row of `commits` restricted to its identity `(repository_id, sha)`. -/
structure CommitRow where
  repoId : Nat
  sha : String
deriving DecidableEq, Repr

/-- `DB.GetCommitsBySHA`: `SELECT * FROM commits WHERE repository_id = $1 AND
sha = $2`, with `ErrNoRows` mapped to `nil`. -/
def DB.GetCommitsBySHA (db : List CommitRow) (repoId : Nat) (sha : String) : Option CommitRow :=
  db.find? (fun c => decide (c.repoId = repoId ∧ c.sha = sha))

/-- `DB.CreateCommit`: plain `INSERT INTO commits ... RETURNING id`; the
`UNIQUE(repository_id, sha)` constraint makes the insert of a duplicate fail. -/
def DB.CreateCommit (db : List CommitRow) (c : CommitRow) : Except String (List CommitRow) :=
  if db.any (fun c0 => decide (c0.repoId = c.repoId ∧ c0.sha = c.sha)) then
    .error "duplicate key value violates unique constraint"
  else .ok (db ++ [c])

/-- Commit-ingestion loop of `Service.SyncRepository`: for each fetched sha,
check `GetCommitsBySHA` and skip when present, otherwise `CreateCommit`; a
`CreateCommit` failure is wrapped in a `CommitError` and returned.
`interf step` gives the rows a concurrent sync inserts between the step's
existence check and its insert. -/
def Service.syncCommits (repoId : Nat) (interf : Nat → List CommitRow) :
    List String → Nat → List CommitRow → Except String (List CommitRow)
  | [], _, db => .ok db
  | sha :: rest, step, db =>
      match DB.GetCommitsBySHA db repoId sha with
      | some _ => Service.syncCommits repoId interf rest (step + 1) db
      | none =>
          match DB.CreateCommit (db ++ interf step) ⟨repoId, sha⟩ with
          | .error e => .error ("CommitError: CreateCommit: " ++ e)
          | .ok db2 => Service.syncCommits repoId interf rest (step + 1) db2

/-! ### Monitor loop (`SyncWorker.syncAll`, `splitRepoName`) -/

/-- Observable steps of one `syncAll` tick, per repository. -/
inductive SyncEvent where
  | skip (name : List Char)
  | attempt (name : List Char) (k : Nat)
  | wait (seconds : Nat)
  | updateSync (name : List Char) (now : Nat)
  | giveUp (name : List Char)
deriving DecidableEq, Repr

/-- `strings.Split` on a one-character separator, over `List Char`. -/
def splitOnChar (sep : Char) : List Char → List (List Char)
  | [] => [[]]
  | c :: rest =>
      let r := splitOnChar sep rest
      if c = sep then [] :: r
      else
        match r with
        | [] => [[c]]
        | h :: t => (c :: h) :: t

/-- `splitRepoName`: exactly two parts become `(owner, name)`, anything else
becomes `("", "")`. -/
def splitRepoName (fullName : List Char) : List Char × List Char :=
  match splitOnChar '/' fullName with
  | [a, b] => (a, b)
  | _ => ([], [])

/-- Retry loop of `syncAll` for one repository:
`for attempt := 1; attempt <= maxRetries; attempt++`.  `ok k` is whether
`SyncRepository` succeeds on attempt `k`; on success the worker updates the
repository's last sync time to `now` and breaks; on the last attempt it
logs and moves on; otherwise it sleeps `attempt * attempt` seconds. -/
def SyncWorker.syncAttempts (ok : Nat → Bool) (name : List Char) (now : Nat) :
    Nat → Nat → List SyncEvent
  | _, 0 => []
  | k, rem + 1 =>
      if ok k then [.attempt name k, .updateSync name now]
      else if rem = 0 then [.attempt name k, .giveUp name]
      else [.attempt name k, .wait (k * k)] ++ SyncWorker.syncAttempts ok name now (k + 1) rem

/-- Per-repository body of `syncAll`: parse `owner/name`, skip when either
part is empty, otherwise run the retry loop with `maxRetries = 3`. -/
def SyncWorker.syncRepoEvents (ok : Nat → Bool) (fullName : List Char) (now : Nat) :
    List SyncEvent :=
  let p := splitRepoName fullName
  if p.1 = [] ∨ p.2 = [] then [.skip fullName]
  else SyncWorker.syncAttempts ok fullName now 1 3

/-- `SyncWorker.syncAll`: iterate the monitored repositories in order,
emitting each repository's events. -/
def SyncWorker.syncAll (ok : List Char → Nat → Bool) (now : Nat) :
    List (List Char) → List SyncEvent
  | [] => []
  | fn :: rest =>
      SyncWorker.syncRepoEvents (ok fn) fn now ++ SyncWorker.syncAll ok now rest

/-! ### GitHub client (`internal/github/client.go`) -/

/-- The rate-limit snapshot `{Remaining, Limit, Reset}`; `reset` is Unix
seconds. -/
structure RateLimitInfo where
  remaining : Int
  limit : Int
  reset : Nat
deriving DecidableEq, Repr

/-- `NewClient`: the built-in snapshot is `Remaining = 60`, `Limit = 60`,
`Reset = now + time.Hour` (constructed before any response is observed). -/
def Client.NewClient (constructedAt : Nat) : RateLimitInfo :=
  { remaining := 60, limit := 60, reset := constructedAt + 3600 }

/-- `Client.GetRateLimitInfo` returns the cached snapshot. -/
def Client.GetRateLimitInfo (rl : RateLimitInfo) : RateLimitInfo := rl

/-- `Client.checkRateLimit` suspends exactly when the cached `Remaining` is 0
and the cached `Reset` is still in the future. -/
def Client.rateLimitGateSuspends (rl : RateLimitInfo) (now : Nat) : Bool :=
  decide (rl.remaining = 0 ∧ now < rl.reset)

/-- Gate and fetch events emitted while `GetCommits` pages. -/
inductive FetchEvent where
  | gate
  | fetch (page : Nat) (perPage : Nat)
deriving DecidableEq, Repr

/-- Pagination loop of `Client.GetCommits`: `pages p` is the upstream's reply
to `page = p` (each request carries `per_page = 100`).  Each `doRequest`
consults the rate-limit gate before the HTTP call; after a full page the
loop consults the gate again (`checkRateLimit`) and advances `page`.  The
loop exits at the first page with fewer than `perPage` items.  `fuel`
bounds the iterations so the model stays total; `none` means the fuel ran
out before a short page appeared. -/
def Client.getCommitsLoop {γ : Type} (pages : Nat → List γ) :
    Nat → Nat → Option (List γ × List FetchEvent)
  | _, 0 => none
  | page, fuel + 1 =>
      let items := pages page
      if items.length < 100 then some (items, [.gate, .fetch page 100])
      else
        match Client.getCommitsLoop pages (page + 1) fuel with
        | none => none
        | some (rest, tr) => some (items ++ rest, [.gate, .fetch page 100, .gate] ++ tr)

/-- `Client.GetCommits` starts the pagination loop at `page = 1`. -/
def Client.GetCommits {γ : Type} (pages : Nat → List γ) (fuel : Nat) :
    Option (List γ × List FetchEvent) :=
  Client.getCommitsLoop pages 1 fuel

/-- Trace of a `GetCommits` run that fetches `n` pages starting at `start`,
the last one short. -/
def expectedTrace (start : Nat) : Nat → List FetchEvent
  | 0 => []
  | 1 => [.gate, .fetch start 100]
  | n + 2 => [.gate, .fetch start 100, .gate] ++ expectedTrace (start + 1) (n + 1)

/-- Concatenation of `pages start, pages (start+1), ...` over `n` pages. -/
def pagesConcat {γ : Type} (pages : Nat → List γ) (start : Nat) : Nat → List γ
  | 0 => []
  | n + 1 => pages start ++ pagesConcat pages (start + 1) n

/-! ### Concrete fixtures used by closed theorems and witnesses -/

/-- A dequeued job whose `retry_count` has reached `max_retries`. -/
def c1Job : QJob :=
  { id := 1, status := .running, createdAt := 0, updatedAt := 0, error := none,
    retryCount := 3, maxRetries := 3, lastRetryAt := none, nextRetryAt := none,
    initialBackoff := 1000000000 }

/-- A job with one prior failure (`retry_count = 1`). -/
def c2Job : QJob :=
  { id := 1, status := .running, createdAt := 0, updatedAt := 0, error := none,
    retryCount := 1, maxRetries := 3, lastRetryAt := none, nextRetryAt := none,
    initialBackoff := 1000000000 }

/-- A job with no prior failure (`retry_count = 0`). -/
def c2wJob : QJob :=
  { id := 4, status := .running, createdAt := 0, updatedAt := 0, error := none,
    retryCount := 0, maxRetries := 3, lastRetryAt := none, nextRetryAt := none,
    initialBackoff := 1000000000 }

/-- A pending job awaiting dispatch. -/
def c4Job : QJob :=
  { id := 9, status := .pending, createdAt := 17, updatedAt := 17, error := none,
    retryCount := 0, maxRetries := 3, lastRetryAt := none, nextRetryAt := none,
    initialBackoff := 1000000000 }

/-- An active monitored-repository row. -/
def c7Row : MRepoRow :=
  { id := 1, fullName := "golang/example", lastSyncTime := 0, syncInterval := "1h0m0s",
    isActive := true, updatedAt := 0 }

/-- An upstream with one full page followed by one short page. -/
def c6Pages : Nat → List Nat := fun p => if p = 1 then List.replicate 100 0 else [7]

/-- The row `PostgresQueue.Fail` leaves behind for `c1Job` in the
max-retries scenario. -/
def c1JobAfter : QJob :=
  { id := 1, status := .failed, createdAt := 0, updatedAt := 5000,
    error := some "max retries reached: sync failed",
    retryCount := 4, maxRetries := 3, lastRetryAt := some 5000,
    nextRetryAt := some (5000 + DefaultInitialBackoff), initialBackoff := 1000000000 }

/-- The row `PostgresQueue.Fail` leaves behind for `c2Job`. -/
def c2JobAfter : QJob :=
  { id := 1, status := .failed, createdAt := 0, updatedAt := 5000,
    error := some "boom", retryCount := 2, maxRetries := 3, lastRetryAt := some 5000,
    nextRetryAt := some (5000 + DefaultInitialBackoff), initialBackoff := 1000000000 }

/-! ## Theorems -/

/-- C9: For every prior contents of the jobs relation, a successful
`NewPostgresQueue` leaves the jobs relation empty: construction runs
`initializeQueueSchema`, which drops and recreates the `jobs` table, so no
job enqueued before construction survives it (and the same holds starting
from no table at all). -/
theorem NewPostgresQueue_clears_jobs :
    (∀ prior : List QJob,
      NewPostgresQueue (some prior) = Except.ok (some ([] : List QJob))) ∧
    NewPostgresQueue (none : JobsTable) = Except.ok (some ([] : List QJob)) :=
  ⟨fun _ => rfl, rfl⟩

/-- C10: Immediately after `NewClient` and before any HTTP response is
observed, `GetRateLimitInfo` returns `Remaining = 60`, `Limit = 60` and
`Reset` one hour after construction, and since `Remaining` is non-zero the
rate-limit gate never suspends the fresh client's first request. -/
theorem NewClient_rateLimit_defaults :
    ∀ t now : Nat,
      Client.GetRateLimitInfo (Client.NewClient t) =
        { remaining := 60, limit := 60, reset := t + 3600 } ∧
      Client.rateLimitGateSuspends (Client.NewClient t) now = false := by
  intro t now
  refine ⟨rfl, ?_⟩
  simp [Client.rateLimitGateSuspends, Client.NewClient]

/-- C1: evaluation of the worker's failure path at a job whose dequeued
`retry_count` (3) has reached `max_retries` (3).  The worker routes the
failure through `Queue.Fail`, which persists status `'failed'` — not
`'stopped'` as the specification requires (the `stopped` assignment only
touches the worker's in-memory copy) — while `Complete` is indeed never
called. -/
theorem processNextJob_maxRetries_persists_failed :
    JobWorker.processDequeuedJob 5000 c1Job (some "sync failed") [c1Job] =
      (Except.ok [c1JobAfter], [QueueCall.fail 1 "max retries reached: sync failed"]) ∧
    c1JobAfter.status = JobStatus.failed ∧
    JobStatus.failed ≠ JobStatus.stopped ∧
    QueueCall.complete 1 ∉ [QueueCall.fail 1 "max retries reached: sync failed"] := by
  refine ⟨rfl, rfl, by decide, by decide⟩

/-- C2 counterexample: `Fail` on a job with `retry_count = 1` persists
`next_retry_at = now + DefaultInitialBackoff` (a constant one second),
which no jitter draw in `[0,1]` can reconcile with the specification's
`initial_backoff * factor^retry_count` schedule, whether `retry_count` is
read before (1) or after (2) the increment. -/
theorem Fail_nextRetryAt_not_exponential :
    PostgresQueue.Fail 5000 1 "boom" [c2Job] = Except.ok [c2JobAfter] ∧
    c2JobAfter.nextRetryAt = some 1000005000 ∧
    ¬ (∃ u : ℚ, 0 ≤ u ∧ u ≤ 1 ∧
        (1000005000 : ℚ) = specFailNextRetryAt 5000 1000000000 1 u) ∧
    ¬ (∃ u : ℚ, 0 ≤ u ∧ u ≤ 1 ∧
        (1000005000 : ℚ) = specFailNextRetryAt 5000 1000000000 2 u) := by
  refine ⟨rfl, rfl, ?_, ?_⟩
  · rintro ⟨u, h0, h1, heq⟩
    simp only [specFailNextRetryAt, qDefaultBackoffFactor, qDefaultJitterFactor,
      qDefaultMaxBackoff] at heq
    rw [min_eq_left (by nlinarith)] at heq
    nlinarith
  · rintro ⟨u, h0, h1, heq⟩
    simp only [specFailNextRetryAt, qDefaultBackoffFactor, qDefaultJitterFactor,
      qDefaultMaxBackoff] at heq
    rw [min_eq_left (by nlinarith)] at heq
    nlinarith

/-- C3 counterexample: a commit absent at the `GetCommitsBySHA` check but
inserted by a concurrent sync before the `CreateCommit` insert makes the
ingestion loop return a `CommitError`; the conflict is not treated as
success. -/
theorem syncCommits_race_duplicate_errors :
    Service.syncCommits 1 (fun _ => [⟨1, "abc"⟩]) ["abc"] 0 [] =
      Except.error "CommitError: CreateCommit: duplicate key value violates unique constraint" :=
  rfl

/-- Capping at the maximum backoff is taking a minimum. -/
theorem capBackoff_eq_min (x : ℚ) :
    (if qDefaultMaxBackoff < x then qDefaultMaxBackoff else x) = min x qDefaultMaxBackoff := by
  rcases le_or_lt x qDefaultMaxBackoff with h | h
  · rw [if_neg (not_lt.mpr h), min_eq_left h]
  · rw [if_pos h, min_eq_right h.le]

/-- With a zero jitter draw, `calculateBackoff` is the capped pure
exponential. -/
theorem calculateBackoff_zero_jitter (ib : ℚ) (r : Nat) :
    JobWorker.calculateBackoff ib r 0 =
      min ((if ib = 0 then qDefaultInitialBackoff else ib) * qDefaultBackoffFactor ^ r)
        qDefaultMaxBackoff := by
  simp only [JobWorker.calculateBackoff, zero_mul, add_zero]
  exact capBackoff_eq_min _

/-- C5: the worker's backoff is monotonically non-decreasing in the retry
count modulo jitter (jitter-free values compared at `r1 ≤ r2`), and its
result never exceeds `DefaultMaxBackoff` for any retry count and any
jitter draw. -/
theorem calculateBackoff_monotone_bounded :
    (∀ (ib : ℚ) (r1 r2 : Nat), 0 ≤ ib → r1 ≤ r2 →
        JobWorker.calculateBackoff ib r1 0 ≤ JobWorker.calculateBackoff ib r2 0) ∧
    (∀ (ib : ℚ) (r : Nat) (u : ℚ),
        JobWorker.calculateBackoff ib r u ≤ qDefaultMaxBackoff) := by
  constructor
  · intro ib r1 r2 hib h12
    rw [calculateBackoff_zero_jitter, calculateBackoff_zero_jitter]
    have hib' : 0 ≤ (if ib = 0 then qDefaultInitialBackoff else ib) := by
      split
      · norm_num [qDefaultInitialBackoff]
      · exact hib
    refine min_le_min ?_ le_rfl
    refine mul_le_mul_of_nonneg_left ?_ hib'
    exact pow_le_pow_right₀ (by norm_num [qDefaultBackoffFactor]) h12
  · intro ib r u
    simp only [JobWorker.calculateBackoff]
    rw [capBackoff_eq_min]
    exact min_le_right _ _

/-- C5 witness: the theorem applied at concrete inputs. -/
theorem calculateBackoff_monotone_bounded_witness :
    JobWorker.calculateBackoff 5 1 0 ≤ JobWorker.calculateBackoff 5 3 0 ∧
    JobWorker.calculateBackoff 5 2 (1/2) ≤ qDefaultMaxBackoff :=
  ⟨calculateBackoff_monotone_bounded.1 5 1 3 (by norm_num) (by norm_num),
   calculateBackoff_monotone_bounded.2 5 2 (1/2)⟩

/-- C2 amended: `Fail(id, err)` increments the job's persisted
`retry_count` by one, writes the error string, sets `last_retry_at = now`,
sets `next_retry_at = now + DefaultInitialBackoff` (a constant one second,
not the exponential-with-jitter schedule), flips the status to `'failed'`,
and — exactly when the new `retry_count` is 1 — persists
`initial_backoff = DefaultInitialBackoff`; every other row is untouched. -/
theorem Fail_spec (now jobID : Nat) (msg : String) (st : List QJob) (r : QJob)
    (hmem : r ∈ st) (hid : r.id = jobID) (hnd : (st.map QJob.id).Nodup) :
    ∃ st', PostgresQueue.Fail now jobID msg st = Except.ok st' ∧
      failedRow now msg r ∈ st' ∧
      st'.length = st.length ∧
      ∀ s ∈ st, s.id ≠ jobID → s ∈ st' := by
  cases hf : st.find? (fun j => j.id = jobID) with
  | none =>
      rw [List.find?_eq_none] at hf
      exact absurd (by simpa using hf r hmem) (by simp [hid])
  | some r0 =>
      have hr0mem : r0 ∈ st := List.mem_of_find?_eq_some hf
      have hr0id : r0.id = jobID := by simpa using List.find?_some hf
      have hrr : r0 = r :=
        List.inj_on_of_nodup_map hnd hr0mem hmem (by rw [hr0id, hid])
      subst hrr
      have hfr : failUpdate now jobID msg r0 =
          { r0 with status := .failed, updatedAt := now, error := some msg,
                    retryCount := r0.retryCount + 1, lastRetryAt := some now,
                    nextRetryAt := some (now + DefaultInitialBackoff) } := by
        simp [failUpdate, hr0id]
      by_cases hc : r0.retryCount + 1 = 1
      · refine ⟨(st.map (failUpdate now jobID msg)).map (backoffUpdate jobID),
          ?_, ?_, by simp, ?_⟩
        · simp only [PostgresQueue.Fail, hf]
          rw [if_pos hc]
        · have heq : backoffUpdate jobID (failUpdate now jobID msg r0) =
              failedRow now msg r0 := by
            rw [hfr]
            simp [backoffUpdate, failedRow, hc, hr0id]
          exact heq ▸ List.mem_map_of_mem _ (List.mem_map_of_mem _ hr0mem)
        · intro s hs hsid
          have h1 : failUpdate now jobID msg s = s := by simp [failUpdate, hsid]
          have h2 : backoffUpdate jobID s = s := by simp [backoffUpdate, hsid]
          have hm := List.mem_map_of_mem (backoffUpdate jobID)
            (List.mem_map_of_mem (failUpdate now jobID msg) hs)
          rwa [h1, h2] at hm
      · refine ⟨st.map (failUpdate now jobID msg), ?_, ?_, by simp, ?_⟩
        · simp only [PostgresQueue.Fail, hf]
          rw [if_neg hc]
        · have heq : failUpdate now jobID msg r0 = failedRow now msg r0 := by
            rw [hfr]
            simp [failedRow, hc]
          exact heq ▸ List.mem_map_of_mem _ hr0mem
        · intro s hs hsid
          have h1 : failUpdate now jobID msg s = s := by simp [failUpdate, hsid]
          exact h1 ▸ List.mem_map_of_mem _ hs

/-- C2 witness: `Fail_spec` applied to a one-row queue holding `c2wJob`. -/
theorem Fail_spec_witness :
    ∃ st', PostgresQueue.Fail 100 4 "e" [c2wJob] = Except.ok st' ∧
      failedRow 100 "e" c2wJob ∈ st' ∧
      st'.length = [c2wJob].length ∧
      ∀ s ∈ [c2wJob], s.id ≠ 4 → s ∈ st' :=
  Fail_spec 100 4 "e" [c2wJob] c2wJob (by simp) rfl (by simp)

/-- C3 amended: a duplicate that is already visible at the
`GetCommitsBySHA` check is skipped without error, but a duplicate inserted
by a concurrent sync between the check and the insert makes `CreateCommit`
fail with a unique-constraint violation, which `SyncRepository` returns as
a `CommitError` — the conflict is not treated as success. -/
theorem syncCommits_duplicate_handling (repoId : Nat) (interf : Nat → List CommitRow)
    (sha : String) (rest : List String) (step : Nat) (db : List CommitRow) :
    (DB.GetCommitsBySHA db repoId sha ≠ none →
      Service.syncCommits repoId interf (sha :: rest) step db =
        Service.syncCommits repoId interf rest (step + 1) db) ∧
    (DB.GetCommitsBySHA db repoId sha = none →
      (∃ c ∈ interf step, c.repoId = repoId ∧ c.sha = sha) →
      Service.syncCommits repoId interf (sha :: rest) step db =
        Except.error
          "CommitError: CreateCommit: duplicate key value violates unique constraint") := by
  constructor
  · intro hne
    cases hg : DB.GetCommitsBySHA db repoId sha with
    | none => exact absurd hg hne
    | some c => simp only [Service.syncCommits, hg]
  · rintro hg ⟨c, hcmem, hcrep, hcsha⟩
    have hdup : (db ++ interf step).any
        (fun c0 => decide (c0.repoId = repoId ∧ c0.sha = sha)) = true := by
      rw [List.any_eq_true]
      exact ⟨c, List.mem_append_right db hcmem, by simp [hcrep, hcsha]⟩
    simp only [Service.syncCommits, hg, DB.CreateCommit, hdup, if_true]
    rfl

/-- C3 witness: `syncCommits_duplicate_handling` applied where the commit
is already visible at the check, so the loop skips it. -/
theorem syncCommits_duplicate_handling_witness :
    Service.syncCommits 1 (fun _ => []) ["s"] 0 [⟨1, "s"⟩] =
      Service.syncCommits 1 (fun _ => []) [] 1 [⟨1, "s"⟩] :=
  (syncCommits_duplicate_handling 1 (fun _ => []) "s" [] 0 [⟨1, "s"⟩]).1 (by decide)

/-- C7: `RemoveMonitoredRepository` flips `is_active` to false on every row
matching the full name without deleting anything (row count unchanged,
all other rows untouched), after which the repository no longer appears in
`GetMonitoredRepositories`, which returns only rows with
`is_active = true`. -/
theorem RemoveMonitoredRepository_spec (now : Nat) (fullName : String)
    (st st' : List MRepoRow)
    (h : DB.RemoveMonitoredRepository now fullName st = Except.ok st') :
    st'.length = st.length ∧
    (∀ i r, st.get? i = some r →
      st'.get? i = some (if r.fullName = fullName
        then { r with isActive := false, updatedAt := now } else r)) ∧
    (∀ r ∈ DB.GetMonitoredRepositories st', r.fullName ≠ fullName) ∧
    (∀ st0 : List MRepoRow, ∀ r ∈ DB.GetMonitoredRepositories st0, r.isActive = true) := by
  unfold DB.RemoveMonitoredRepository at h
  split at h
  case isFalse => exact absurd h (by simp)
  case isTrue =>
    have hst' : st' = st.map (fun r =>
        if r.fullName = fullName then { r with isActive := false, updatedAt := now }
        else r) := by
      injection h with h'
      exact h'.symm
    subst hst'
    refine ⟨by simp, ?_, ?_, ?_⟩
    · intro i r hir
      rw [List.get?_map, hir]
      rfl
    · intro r hr
      rw [DB.GetMonitoredRepositories, List.mem_filter] at hr
      obtain ⟨hrmem, hract⟩ := hr
      rw [List.mem_map] at hrmem
      obtain ⟨s, _, hs⟩ := hrmem
      by_cases hsn : s.fullName = fullName
      · rw [if_pos hsn] at hs
        subst hs
        simp at hract
      · rw [if_neg hsn] at hs
        subst hs
        exact hsn
    · intro st0 r hr
      rw [DB.GetMonitoredRepositories, List.mem_filter] at hr
      exact hr.2

/-- C7 witness: removing `golang/example` from a one-row monitored set. -/
theorem RemoveMonitoredRepository_spec_witness :
    [{ c7Row with isActive := false, updatedAt := 7 }].length = [c7Row].length ∧
    (∀ i r, [c7Row].get? i = some r →
      [{ c7Row with isActive := false, updatedAt := 7 }].get? i =
        some (if r.fullName = "golang/example"
          then { r with isActive := false, updatedAt := 7 } else r)) ∧
    (∀ r ∈ DB.GetMonitoredRepositories [{ c7Row with isActive := false, updatedAt := 7 }],
      r.fullName ≠ "golang/example") ∧
    (∀ st0 : List MRepoRow, ∀ r ∈ DB.GetMonitoredRepositories st0, r.isActive = true) :=
  RemoveMonitoredRepository_spec 7 "golang/example" [c7Row]
    [{ c7Row with isActive := false, updatedAt := 7 }] (by rfl)

/-- `selectOldest` returns `none` exactly on the empty candidate list. -/
theorem selectOldest_eq_none {l : List QJob} : selectOldest l = none ↔ l = [] := by
  cases l with
  | nil => simp [selectOldest]
  | cons r rest =>
      simp only [selectOldest]
      constructor
      · intro h
        cases hr : selectOldest rest with
        | none => rw [hr] at h; cases h
        | some b => rw [hr] at h; dsimp at h; split at h <;> cases h
      · intro h
        cases h

/-- A selected row is a candidate. -/
theorem selectOldest_mem : ∀ {l : List QJob} {c : QJob}, selectOldest l = some c → c ∈ l := by
  intro l
  induction l with
  | nil => intro c h; cases h
  | cons r rest ih =>
      intro c h
      simp only [selectOldest] at h
      cases hr : selectOldest rest with
      | none =>
          rw [hr] at h
          cases h
          exact List.mem_cons_self r rest
      | some b =>
          rw [hr] at h
          dsimp at h
          split at h
          · cases h
            exact List.mem_cons_of_mem r (ih hr)
          · cases h
            exact List.mem_cons_self r rest

/-- A selected row has the least `created_at` among the candidates. -/
theorem selectOldest_min : ∀ {l : List QJob} {c : QJob}, selectOldest l = some c →
    ∀ r ∈ l, c.createdAt ≤ r.createdAt := by
  intro l
  induction l with
  | nil => intro c h; cases h
  | cons r rest ih =>
      intro c h x hx
      simp only [selectOldest] at h
      cases hr : selectOldest rest with
      | none =>
          rw [hr] at h
          cases h
          rw [selectOldest_eq_none.mp hr] at hx
          rcases List.mem_singleton.mp hx with rfl
          exact le_refl _
      | some b =>
          rw [hr] at h
          dsimp at h
          rcases List.mem_cons.mp hx with rfl | hx'
          · split at h
            · cases h
              next hlt => exact le_of_lt hlt
            · cases h
              exact le_refl _
          · split at h
            · cases h
              exact ih hr x hx'
            · cases h
              next hnlt =>
                exact le_trans (not_lt.mp hnlt) (ih hr x hx')

/-- C4: when a pending, unlocked job exists, `Dequeue` atomically returns a
pending job with the least `created_at` among the pending unlocked rows,
persisted as `running` with `updated_at = now`, leaving every other row
untouched; when no pending job exists it returns no job and no error, with
the state unchanged. -/
theorem Dequeue_spec (now : Nat) (locked : List Nat) (st : List QJob) :
    ((∀ r ∈ st, r.status ≠ JobStatus.pending) →
      PostgresQueue.Dequeue now locked st = (none, st)) ∧
    (∀ r0 ∈ st, r0.status = JobStatus.pending → r0.id ∉ locked →
      ∃ c ∈ st, c.status = JobStatus.pending ∧ c.id ∉ locked ∧
        (∀ r ∈ st, r.status = JobStatus.pending → r.id ∉ locked →
          c.createdAt ≤ r.createdAt) ∧
        (PostgresQueue.Dequeue now locked st).1 =
          some { c with status := JobStatus.running, updatedAt := now } ∧
        (∀ i r, st.get? i = some r →
          (PostgresQueue.Dequeue now locked st).2.get? i =
            some (if r.id = c.id
              then { r with status := JobStatus.running, updatedAt := now } else r))) := by
  constructor
  · intro hnone
    have hfil : st.filter (fun r => decide (r.status = .pending ∧ r.id ∉ locked)) = [] := by
      rw [List.filter_eq_nil]
      intro a ha
      simp only [decide_eq_true_eq, not_and]
      intro hp
      exact absurd hp (hnone a ha)
    simp only [PostgresQueue.Dequeue, hfil]
    rfl
  · intro r0 hr0 hp0 hl0
    have hr0f : r0 ∈ st.filter (fun r => decide (r.status = .pending ∧ r.id ∉ locked)) := by
      rw [List.mem_filter]
      exact ⟨hr0, by simp [hp0, hl0]⟩
    cases hsel : selectOldest
        (st.filter (fun r => decide (r.status = .pending ∧ r.id ∉ locked))) with
    | none =>
        rw [selectOldest_eq_none] at hsel
        rw [hsel] at hr0f
        cases hr0f
    | some c =>
        have hcmem := selectOldest_mem hsel
        rw [List.mem_filter] at hcmem
        obtain ⟨hcst, hcprop⟩ := hcmem
        rw [decide_eq_true_eq] at hcprop
        refine ⟨c, hcst, hcprop.1, hcprop.2, ?_, ?_, ?_⟩
        · intro r hr hp hl
          exact selectOldest_min hsel r (by rw [List.mem_filter]; exact ⟨hr, by simp [hp, hl]⟩)
        · simp only [PostgresQueue.Dequeue, hsel]
        · intro i r hir
          simp only [PostgresQueue.Dequeue, hsel]
          rw [List.get?_map, hir]
          rfl

/-- C4 witness: `Dequeue_spec` applied to a one-row queue with a pending
job and no concurrent locks. -/
theorem Dequeue_spec_witness :
    ∃ c ∈ [c4Job], c.status = JobStatus.pending ∧ c.id ∉ ([] : List Nat) ∧
      (∀ r ∈ [c4Job], r.status = JobStatus.pending → r.id ∉ ([] : List Nat) →
        c.createdAt ≤ r.createdAt) ∧
      (PostgresQueue.Dequeue 50 [] [c4Job]).1 =
        some { c with status := JobStatus.running, updatedAt := 50 } ∧
      (∀ i r, [c4Job].get? i = some r →
        (PostgresQueue.Dequeue 50 [] [c4Job]).2.get? i =
          some (if r.id = c.id
            then { r with status := JobStatus.running, updatedAt := 50 } else r)) :=
  (Dequeue_spec 50 [] [c4Job]).2 c4Job (by simp) rfl (by simp)

/-- Every fetch in an `expectedTrace` carries `per_page = 100` and is
immediately preceded by a rate-limit gate consultation. -/
theorem expectedTrace_gate_before_fetch :
    ∀ (n start i p pp : Nat),
      (expectedTrace start n).get? i = some (FetchEvent.fetch p pp) →
      pp = 100 ∧ 1 ≤ i ∧ (expectedTrace start n).get? (i - 1) = some FetchEvent.gate := by
  intro n
  induction n with
  | zero => intro start i p pp h; simp [expectedTrace] at h
  | succ m ih =>
      cases m with
      | zero =>
          intro start i p pp h
          cases i with
          | zero => simp [expectedTrace] at h
          | succ i =>
              cases i with
              | zero =>
                  refine ⟨?_, by omega, rfl⟩
                  simp [expectedTrace] at h
                  omega
              | succ i => simp [expectedTrace] at h
      | succ k =>
          intro start i p pp h
          cases i with
          | zero => simp [expectedTrace] at h
          | succ i =>
              cases i with
              | zero =>
                  refine ⟨?_, by omega, rfl⟩
                  simp [expectedTrace] at h
                  omega
              | succ i =>
                  cases i with
                  | zero => simp [expectedTrace] at h
                  | succ i =>
                      have h' : (expectedTrace (start + 1) (k + 1)).get? i =
                          some (FetchEvent.fetch p pp) := h
                      obtain ⟨hpp, hi, hg⟩ := ih (start + 1) i p pp h'
                      refine ⟨hpp, by omega, ?_⟩
                      obtain ⟨j, rfl⟩ : ∃ j, i = j + 1 := ⟨i - 1, by omega⟩
                      exact hg

/-- Pagination loop of `GetCommits`: when pages `start .. start+K-2` are
full and page `start+K-1` is the first short one, the loop returns the
pages concatenated in fetch order together with the canonical trace. -/
theorem getCommitsLoop_pages {γ : Type} (pages : Nat → List γ) :
    ∀ (K start fuel : Nat), 1 ≤ K → K ≤ fuel →
      (∀ i, i + 1 < K → 100 ≤ (pages (start + i)).length) →
      (pages (start + K - 1)).length < 100 →
      Client.getCommitsLoop pages start fuel =
        some (pagesConcat pages start K, expectedTrace start K) := by
  intro K
  induction K with
  | zero => intro start fuel h1; exact absurd h1 (by omega)
  | succ k ih =>
      intro start fuel h1 hfuel hfull hshort
      obtain ⟨f, rfl⟩ : ∃ f, fuel = f + 1 := ⟨fuel - 1, by omega⟩
      cases k with
      | zero =>
          have hs : (pages start).length < 100 := by simpa using hshort
          simp only [Client.getCommitsLoop]
          rw [if_pos hs]
          simp [pagesConcat, expectedTrace]
      | succ k' =>
          have hfull0 : 100 ≤ (pages start).length := by
            have h0 := hfull 0 (by omega)
            simpa using h0
          have hns : ¬ ((pages start).length < 100) := not_lt.mpr hfull0
          have hfull' : ∀ i, i + 1 < k' + 1 → 100 ≤ (pages (start + 1 + i)).length := by
            intro i hi
            have hv := hfull (i + 1) (by omega)
            have harith : start + (i + 1) = start + 1 + i := by omega
            rwa [harith] at hv
          have hshort' : (pages (start + 1 + (k' + 1) - 1)).length < 100 := by
            have harith : start + 1 + (k' + 1) - 1 = start + (k' + 1 + 1) - 1 := by omega
            rw [harith]
            exact hshort
          simp only [Client.getCommitsLoop]
          rw [if_neg hns, ih (start + 1) f (by omega) (by omega) hfull' hshort']
          rfl

/-- C6: `GetCommits` pages with `per_page = 100` starting at `page = 1`,
advancing after each full page and stopping at the first short page; it
returns the pages concatenated in fetch order, and the rate-limit gate is
consulted immediately before every fetch (in particular before each page
after the first). -/
theorem GetCommits_pagination {γ : Type} (pages : Nat → List γ) (K fuel : Nat)
    (hK : 1 ≤ K) (hfuel : K ≤ fuel)
    (hfull : ∀ p, 1 ≤ p → p < K → 100 ≤ (pages p).length)
    (hshort : (pages K).length < 100) :
    Client.GetCommits pages fuel = some (pagesConcat pages 1 K, expectedTrace 1 K) ∧
    (∀ i p pp, (expectedTrace 1 K).get? i = some (FetchEvent.fetch p pp) →
      pp = 100 ∧ 1 ≤ i ∧ (expectedTrace 1 K).get? (i - 1) = some FetchEvent.gate) := by
  constructor
  · refine getCommitsLoop_pages pages K 1 fuel hK hfuel ?_ ?_
    · intro i hi
      exact hfull (1 + i) (by omega) (by omega)
    · have harith : 1 + K - 1 = K := by omega
      rw [harith]
      exact hshort
  · intro i p pp h
    exact expectedTrace_gate_before_fetch K 1 i p pp h

/-- C6 witness: `GetCommits_pagination` on an upstream whose page 1 is full
and whose page 2 is short. -/
theorem GetCommits_pagination_witness :
    Client.GetCommits c6Pages 2 = some (pagesConcat c6Pages 1 2, expectedTrace 1 2) ∧
    (∀ i p pp, (expectedTrace 1 2).get? i = some (FetchEvent.fetch p pp) →
      pp = 100 ∧ 1 ≤ i ∧ (expectedTrace 1 2).get? (i - 1) = some FetchEvent.gate) :=
  GetCommits_pagination c6Pages 2 2 (by omega) (by omega)
    (by
      intro p h1 h2
      have hp : p = 1 := by omega
      subst hp
      simp [c6Pages])
    (by decide)

/-- `splitOnChar` always produces at least one part. -/
theorem splitOnChar_ne_nil (sep : Char) : ∀ l : List Char, splitOnChar sep l ≠ [] := by
  intro l
  induction l with
  | nil => simp [splitOnChar]
  | cons c rest ih =>
      simp only [splitOnChar]
      split
      · simp
      · cases hr : splitOnChar sep rest with
        | nil => exact absurd hr ih
        | cons h t => simp

/-- The number of parts `splitOnChar` produces is one more than the number
of separator occurrences. -/
theorem splitOnChar_length (sep : Char) :
    ∀ l : List Char, (splitOnChar sep l).length = l.count sep + 1 := by
  intro l
  induction l with
  | nil => simp [splitOnChar]
  | cons c rest ih =>
      simp only [splitOnChar]
      by_cases h : c = sep
      · rw [if_pos h]
        subst h
        simp [List.count_cons, ih]
      · rw [if_neg h]
        cases hr : splitOnChar sep rest with
        | nil => exact absurd hr (splitOnChar_ne_nil sep rest)
        | cons hd tl =>
            rw [hr] at ih
            simp only [List.length_cons] at ih ⊢
            rw [List.count_cons]
            simp only [beq_iff_eq, h, if_false]
            omega

/-- C8: on a monitor tick, a repository whose full name does not contain
exactly one `/` is skipped; a well-formed one is synced with up to 3
attempts, sleeping `attempt * attempt` seconds between attempts, its last
sync time updated to now on the first successful attempt; after final
failure the worker gives up on that repository only; and the tick always
proceeds to the remaining repositories regardless of the outcome. -/
theorem syncAll_spec (okAll : List Char → Nat → Bool) (ok : Nat → Bool)
    (fullName : List Char) (now : Nat) :
    (fullName.count '/' ≠ 1 →
      SyncWorker.syncRepoEvents ok fullName now = [SyncEvent.skip fullName]) ∧
    ((splitRepoName fullName).1 ≠ [] → (splitRepoName fullName).2 ≠ [] →
      ((ok 1 = true →
          SyncWorker.syncRepoEvents ok fullName now =
            [SyncEvent.attempt fullName 1, SyncEvent.updateSync fullName now]) ∧
       (ok 1 = false → ok 2 = true →
          SyncWorker.syncRepoEvents ok fullName now =
            [SyncEvent.attempt fullName 1, SyncEvent.wait 1,
             SyncEvent.attempt fullName 2, SyncEvent.updateSync fullName now]) ∧
       (ok 1 = false → ok 2 = false → ok 3 = true →
          SyncWorker.syncRepoEvents ok fullName now =
            [SyncEvent.attempt fullName 1, SyncEvent.wait 1,
             SyncEvent.attempt fullName 2, SyncEvent.wait 4,
             SyncEvent.attempt fullName 3, SyncEvent.updateSync fullName now]) ∧
       (ok 1 = false → ok 2 = false → ok 3 = false →
          SyncWorker.syncRepoEvents ok fullName now =
            [SyncEvent.attempt fullName 1, SyncEvent.wait 1,
             SyncEvent.attempt fullName 2, SyncEvent.wait 4,
             SyncEvent.attempt fullName 3, SyncEvent.giveUp fullName]))) ∧
    (∀ rest, SyncWorker.syncAll okAll now (fullName :: rest) =
      SyncWorker.syncRepoEvents (okAll fullName) fullName now ++
        SyncWorker.syncAll okAll now rest) := by
  refine ⟨?_, ?_, fun rest => rfl⟩
  · intro hcount
    have hlen : (splitOnChar '/' fullName).length ≠ 2 := by
      rw [splitOnChar_length]
      omega
    cases hsp : splitOnChar '/' fullName with
    | nil => simp [SyncWorker.syncRepoEvents, splitRepoName, hsp]
    | cons a t1 =>
        cases t1 with
        | nil => simp [SyncWorker.syncRepoEvents, splitRepoName, hsp]
        | cons b t2 =>
            cases t2 with
            | nil => exact absurd (by rw [hsp]; rfl) hlen
            | cons cc t3 => simp [SyncWorker.syncRepoEvents, splitRepoName, hsp]
  · intro howner hname
    have hcond : ¬ ((splitRepoName fullName).1 = [] ∨ (splitRepoName fullName).2 = []) := by
      simp [howner, hname]
    refine ⟨?_, ?_, ?_, ?_⟩
    · intro h1
      simp only [SyncWorker.syncRepoEvents]
      rw [if_neg hcond]
      simp [SyncWorker.syncAttempts, h1]
    · intro h1 h2
      simp only [SyncWorker.syncRepoEvents]
      rw [if_neg hcond]
      simp [SyncWorker.syncAttempts, h1, h2]
    · intro h1 h2 h3
      simp only [SyncWorker.syncRepoEvents]
      rw [if_neg hcond]
      simp [SyncWorker.syncAttempts, h1, h2, h3]
    · intro h1 h2 h3
      simp only [SyncWorker.syncRepoEvents]
      rw [if_neg hcond]
      simp [SyncWorker.syncAttempts, h1, h2, h3]

/-- C8 witness: a name without a `/` is skipped; a well-formed name whose
first attempt succeeds is synced once and its last sync time updated. -/
theorem syncAll_spec_witness :
    SyncWorker.syncRepoEvents (fun _ => true) ['x'] 5 = [SyncEvent.skip ['x']] ∧
    SyncWorker.syncRepoEvents (fun _ => true) ['a', '/', 'b'] 5 =
      [SyncEvent.attempt ['a', '/', 'b'] 1, SyncEvent.updateSync ['a', '/', 'b'] 5] :=
  ⟨(syncAll_spec (fun _ _ => true) (fun _ => true) ['x'] 5).1 (by decide),
   ((syncAll_spec (fun _ _ => true) (fun _ => true) ['a', '/', 'b'] 5).2.1
      (by decide) (by decide)).1 rfl⟩

end GithubService
